import Mathlib

/-!
Verification of the `rapidjson::PrettyWriter` core (src/src/tm_json_writer.h):
a shallow embedding of the writer state and every public emission operation,
followed by theorems about the separator/indentation policy, the non-finite
double formatter and the protocol assertions.

The Token Encoder (`rapidjson::Writer`, outside src/) is the spec's external
collaborator: its raw literal writers, output sink and double precision are
modelled from the spec where the claims need them.
-/

/-- JSON value kinds, embedding rapidjson's `Type` enum. -/
inductive JsonType where
  | kNullType
  | kFalseType
  | kTrueType
  | kObjectType
  | kArrayType
  | kStringType
  | kNumberType
deriving DecidableEq, Repr

/-- One nesting frame, embedding `Writer::Level`: whether the open container is
an array, and how many direct children have been emitted inside it.  The
`Level(bool inArray_)` constructor used by the pushes starts `valueCount` at 0. -/
structure Level where
  inArray : Bool
  valueCount : Nat
deriving DecidableEq, Repr

/-- Modelled from the spec: the push-only output sink owned by the Token
Encoder (`os_`, outside src/).  `Put` appends one character to `out`; calls to
`Flush` are counted in `flushed`. -/
structure OutputStream where
  out : List Char
  flushed : Nat
deriving DecidableEq, Repr

/-- The `PrettyWriter` state: the nesting stack `level_stack_` (list head = top
frame), the sink `os_`, the indent configuration `indentation_` /
`indentCharCount_`, and the Base encoder's double precision (modelled from the
spec as a gettable/settable value). -/
structure WriterState where
  level_stack_ : List Level
  os_ : OutputStream
  indentation_ : List Char
  indentCharCount_ : Nat
  doublePrecision_ : Int
deriving DecidableEq, Repr

/-- `os_.Put(c)`. -/
def putChar (c : Char) (st : WriterState) : WriterState :=
  { st with os_ := { st.os_ with out := st.os_.out ++ [c] } }

/-- A sequence of `os_.Put` calls. -/
def putChars (cs : List Char) (st : WriterState) : WriterState :=
  { st with os_ := { st.os_ with out := st.os_.out ++ cs } }

/-- `os_.Flush()`. -/
def flushOs (st : WriterState) : WriterState :=
  { st with os_ := { st.os_ with flushed := st.os_.flushed + 1 } }

/-- The characters a single `WriteIndent` call writes: the outer loop runs once
per stack level and the inner loop writes `indentation_[i]` for
`i < indentCharCount_`, i.e. the first `indentCharCount_` characters of the
configured unit, once per level. -/
def indentChars (ind : List Char) (cnt levels : Nat) : List Char :=
  (List.replicate levels (ind.take cnt)).flatten

/-- `PrettyWriter::WriteIndent`: recompute the level count from the current
stack size (`level_stack_.GetSize() / sizeof(Level)`) and write
`indentation_[i]` for `i < indentCharCount_` that many times.  Reading
`indentation_[i]` with `i ≥ indentation_.length` is an out-of-bounds read in
the C source; the embedding maps such a configuration to `none`. -/
def WriteIndent (st : WriterState) : Option WriterState :=
  if st.indentCharCount_ ≤ st.indentation_.length then
    some (putChars (indentChars st.indentation_ st.indentCharCount_ st.level_stack_.length) st)
  else none

/-- `PrettyWriter::PrettyPrefix`: the separator/indentation policy run before
every value emission.  A `RAPIDJSON_ASSERT` failure (non-string kind at a key
position) is modelled as `none`. -/
def PrettyPrefix (type : JsonType) (st : WriterState) : Option WriterState :=
  match st.level_stack_ with
  | [] => some st
  | level :: rest => do
    let st1 ←
      if level.inArray then
        let s :=
          if level.valueCount > 0 then
            let s := putChar ',' st
            if st.indentCharCount_ > 0 then putChar '\n' s else s
          else
            if st.indentCharCount_ > 0 then putChar '\n' st else st
        WriteIndent s
      else
        let s :=
          if level.valueCount > 0 then
            if level.valueCount % 2 = 0 then
              let s := putChar ',' st
              if st.indentCharCount_ > 0 then putChar '\n' s else s
            else
              let s := putChar ':' st
              if st.indentCharCount_ > 0 then putChar ' ' s else s
          else
            if st.indentCharCount_ > 0 then putChar '\n' st else st
        if level.valueCount % 2 = 0 then WriteIndent s else some s
    if !level.inArray && level.valueCount % 2 = 0 && !(type = JsonType.kStringType) then
      none
    else
      some { st1 with level_stack_ := { level with valueCount := level.valueCount + 1 } :: rest }

/-- Modelled from the spec: the Token Encoder's raw literal writers
(`Writer::WriteNull` and friends, outside src/).  Structural tokens and
keyword literals are fixed by the output format; string escaping belongs to
the encoder and is modelled as verbatim quoting; numeric formatting is an
executable stand-in whose exact character content no claim depends on. -/
def WriteNull (st : WriterState) : WriterState :=
  putChars ['n', 'u', 'l', 'l'] st

def WriteBool (b : Bool) (st : WriterState) : WriterState :=
  putChars (if b then ['t', 'r', 'u', 'e'] else ['f', 'a', 'l', 's', 'e']) st

def WriteInt (i : Int) (st : WriterState) : WriterState :=
  putChars (toString i).toList st

def WriteUint (u : Nat) (st : WriterState) : WriterState :=
  putChars (toString u).toList st

def WriteInt64 (i : Int) (st : WriterState) : WriterState :=
  putChars (toString i).toList st

def WriteUint64 (u : Nat) (st : WriterState) : WriterState :=
  putChars (toString u).toList st

/-- Modelled from the spec: the encoder's finite-double formatter
(`Writer::WriteDouble`, outside src/); it reads the configured precision. -/
def WriteDouble (payload : Nat) (st : WriterState) : WriterState :=
  putChars ((toString st.doublePrecision_).toList ++ '~' :: (toString payload).toList) st

/-- Modelled from the spec: `Writer::WriteString` (outside src/); escaping is
the encoder's responsibility and is modelled as verbatim quoting. -/
def WriteString (s : List Char) (st : WriterState) : WriterState :=
  putChars ('"' :: (s ++ ['"'])) st

/-- Classification of a C `double` argument by the three guards of
`PrettyWriter::Double` (`d != d` detects NaN; `d > 0 && d/d != d/d` detects
+Infinity; `d < 0 && d/d != d/d` detects -Infinity); every other double is
finite and is carried as an abstract payload for the encoder. -/
inductive DoubleArg where
  | nan
  | posInf
  | negInf
  | finite (payload : Nat)
deriving DecidableEq, Repr

/-- `PrettyWriter::Null`. -/
def writeNull (st : WriterState) : Option WriterState :=
  (PrettyPrefix JsonType.kNullType st).map WriteNull

/-- `PrettyWriter::Bool`. -/
def writeBool (b : Bool) (st : WriterState) : Option WriterState :=
  (PrettyPrefix (if b then JsonType.kTrueType else JsonType.kFalseType) st).map (WriteBool b)

/-- `PrettyWriter::Int`. -/
def writeInt (i : Int) (st : WriterState) : Option WriterState :=
  (PrettyPrefix JsonType.kNumberType st).map (WriteInt i)

/-- `PrettyWriter::Uint`. -/
def writeUint (u : Nat) (st : WriterState) : Option WriterState :=
  (PrettyPrefix JsonType.kNumberType st).map (WriteUint u)

/-- `PrettyWriter::Int64`. -/
def writeInt64 (i : Int) (st : WriterState) : Option WriterState :=
  (PrettyPrefix JsonType.kNumberType st).map (WriteInt64 i)

/-- `PrettyWriter::Uint64`. -/
def writeUint64 (u : Nat) (st : WriterState) : Option WriterState :=
  (PrettyPrefix JsonType.kNumberType st).map (WriteUint64 u)

/-- `PrettyWriter::Double(double)`: NaN and the infinities are written as
literal tokens directly via `os_.Put`, with no `PrettyPrefix` call; finite
values take the `PrettyPrefix` then `WriteDouble` path. -/
def writeDouble (d : DoubleArg) (st : WriterState) : Option WriterState :=
  match d with
  | DoubleArg.nan => some (putChars ['N', 'a', 'N'] st)
  | DoubleArg.posInf => some (putChars ['I', 'n', 'f', 'i', 'n', 'i', 't', 'y'] st)
  | DoubleArg.negInf => some (putChars ['-', 'I', 'n', 'f', 'i', 'n', 'i', 't', 'y'] st)
  | DoubleArg.finite payload => (PrettyPrefix JsonType.kNumberType st).map (WriteDouble payload)

/-- `PrettyWriter::String`. -/
def writeString (s : List Char) (st : WriterState) : Option WriterState :=
  (PrettyPrefix JsonType.kStringType st).map (WriteString s)

/-- `PrettyWriter::StartObject`: prefix, push `Level(false)`, then
`WriteStartObject` (the encoder's `{` token). -/
def StartObject (st : WriterState) : Option WriterState :=
  (PrettyPrefix JsonType.kObjectType st).map fun s =>
    putChar '{' { s with level_stack_ := ⟨false, 0⟩ :: s.level_stack_ }

/-- `PrettyWriter::EndObject`: assert that the stack is non-empty and the top
frame is an object (`none` on failure), pop it, write the interior newline and
the parent-depth indent when the popped frame was non-empty, write `}`, and
flush the sink when the stack has become empty. -/
def EndObject (st : WriterState) : Option WriterState :=
  match st.level_stack_ with
  | [] => none
  | level :: rest =>
    if level.inArray then none
    else
      let st1 := { st with level_stack_ := rest }
      let afterIndent :=
        if level.valueCount = 0 then some st1
        else
          let s := if st1.indentCharCount_ > 0 then putChar '\n' st1 else st1
          WriteIndent s
      afterIndent.map fun s =>
        let s2 := putChar '}' s
        if s2.level_stack_.isEmpty then flushOs s2 else s2

/-- `PrettyWriter::StartArray`: prefix, push `Level(true)`, then
`WriteStartArray` (the encoder's `[` token). -/
def StartArray (st : WriterState) : Option WriterState :=
  (PrettyPrefix JsonType.kArrayType st).map fun s =>
    putChar '[' { s with level_stack_ := ⟨true, 0⟩ :: s.level_stack_ }

/-- `PrettyWriter::EndArray`: assert that the stack is non-empty and the top
frame is an array (`none` on failure), pop it, write the interior newline and
the parent-depth indent when the popped frame was non-empty, write `]`, and
flush the sink when the stack has become empty. -/
def EndArray (st : WriterState) : Option WriterState :=
  match st.level_stack_ with
  | [] => none
  | level :: rest =>
    if !level.inArray then none
    else
      let st1 := { st with level_stack_ := rest }
      let afterIndent :=
        if level.valueCount = 0 then some st1
        else
          let s := if st1.indentCharCount_ > 0 then putChar '\n' st1 else st1
          WriteIndent s
      afterIndent.map fun s =>
        let s2 := putChar ']' s
        if s2.level_stack_.isEmpty then flushOs s2 else s2

/-- `PrettyWriter::SetIndent`. -/
def SetIndent (ind : List Char) (cnt : Nat) (st : WriterState) : WriterState :=
  { st with indentation_ := ind, indentCharCount_ := cnt }

/-- Modelled from the spec: `Writer::SetDoublePrecision` (outside src/). -/
def SetDoublePrecision (p : Int) (st : WriterState) : WriterState :=
  { st with doublePrecision_ := p }

/-- Modelled from the spec: `Writer::GetDoublePrecision` (outside src/). -/
def GetDoublePrecision (st : WriterState) : Int :=
  st.doublePrecision_

/-- `PrettyWriter::Double(double, int)`: the one-shot precision overload.  It
reads the old precision, sets the requested one, emits, then restores. -/
def writeDoublePrec (d : DoubleArg) (precision : Int) (st : WriterState) : Option WriterState :=
  let oldPrecision := GetDoublePrecision st
  (writeDouble d (SetDoublePrecision precision st)).map (SetDoublePrecision oldPrecision)

/-- Modelled from the spec: the Base encoder's default double precision; its
numeric value is immaterial to every claim. -/
def kDefaultDoublePrecision : Int := 6

/-- The `PrettyWriter` constructor: an empty stack and the member initializers
`indentation_("")` and `indentCharCount_(0)`. -/
def mkPrettyWriter : WriterState :=
  { level_stack_ := []
    os_ := ⟨[], 0⟩
    indentation_ := []
    indentCharCount_ := 0
    doublePrecision_ := kDefaultDoublePrecision }

/-- One public emission call of the writer. -/
inductive WriteOp where
  | null
  | bool (b : Bool)
  | int (i : Int)
  | uint (u : Nat)
  | int64 (i : Int)
  | uint64 (u : Nat)
  | double (d : DoubleArg)
  | doublePrec (d : DoubleArg) (p : Int)
  | str (s : List Char)
  | startObject
  | endObject
  | startArray
  | endArray
deriving DecidableEq, Repr

/-- Dispatch one public call to its implementation. -/
def applyOp : WriteOp → WriterState → Option WriterState
  | WriteOp.null => writeNull
  | WriteOp.bool b => writeBool b
  | WriteOp.int i => writeInt i
  | WriteOp.uint u => writeUint u
  | WriteOp.int64 i => writeInt64 i
  | WriteOp.uint64 u => writeUint64 u
  | WriteOp.double d => writeDouble d
  | WriteOp.doublePrec d p => writeDoublePrec d p
  | WriteOp.str s => writeString s
  | WriteOp.startObject => StartObject
  | WriteOp.endObject => EndObject
  | WriteOp.startArray => StartArray
  | WriteOp.endArray => EndArray

/-- Run a sequence of public calls; any assertion failure aborts the run. -/
def run (ops : List WriteOp) (st : WriterState) : Option WriterState :=
  ops.foldlM (fun s op => applyOp op s) st

example :
    (run [WriteOp.startObject, WriteOp.str ['a'], WriteOp.int 1, WriteOp.endObject]
      mkPrettyWriter).map (fun s => s.os_.out)
      = some ['{', '"', 'a', '"', ':', '1', '}'] := by decide

example :
    (run [WriteOp.startArray, WriteOp.null, WriteOp.int 2, WriteOp.endArray]
      (SetIndent [' '] 1 mkPrettyWriter)).map (fun s => s.os_.out)
      = some ['[', '\n', ' ', 'n', 'u', 'l', 'l', ',', '\n', ' ', '2', '\n', ']'] := by decide

/-! ## Helper lemmas -/

lemma indentChars_zero (ind : List Char) (l : Nat) : indentChars ind 0 l = [] := by
  induction l with
  | zero => rfl
  | succ k ih =>
    simp only [indentChars, List.replicate_succ, List.flatten_cons, List.take_zero,
      List.nil_append]
    exact ih

lemma indentChars_length (ind : List Char) (cnt l : Nat) (hcfg : cnt ≤ ind.length) :
    (indentChars ind cnt l).length = l * cnt := by
  induction l with
  | zero => simp [indentChars]
  | succ k ih =>
    simp only [indentChars, List.replicate_succ, List.flatten_cons, List.length_append,
      List.length_take, Nat.min_eq_left hcfg] at ih ⊢
    rw [ih, add_one_mul]
    omega

/-- Full characterization of `PrettyPrefix` on a non-empty stack, for any
in-bounds indent configuration. -/
lemma prettyPrefix_cons (type : JsonType) (a : Bool) (n : Nat) (rest : List Level)
    (o : List Char) (f : Nat) (ind : List Char) (cnt : Nat) (p : Int)
    (hcfg : cnt ≤ ind.length) :
    PrettyPrefix type ⟨⟨a, n⟩ :: rest, ⟨o, f⟩, ind, cnt, p⟩ =
      if a = true then
        some ⟨⟨a, n + 1⟩ :: rest,
          ⟨o ++ (if 0 < n then [','] else []) ++ (if 0 < cnt then ['\n'] else [])
            ++ indentChars ind cnt (rest.length + 1), f⟩, ind, cnt, p⟩
      else if n % 2 = 1 then
        some ⟨⟨a, n + 1⟩ :: rest,
          ⟨o ++ [':'] ++ (if 0 < cnt then [' '] else []), f⟩, ind, cnt, p⟩
      else if type = JsonType.kStringType then
        some ⟨⟨a, n + 1⟩ :: rest,
          ⟨o ++ (if 0 < n then [','] else []) ++ (if 0 < cnt then ['\n'] else [])
            ++ indentChars ind cnt (rest.length + 1), f⟩, ind, cnt, p⟩
      else none := by
  have hmod : n % 2 = 0 ∨ n % 2 = 1 := Nat.mod_two_eq_zero_or_one n
  cases a with
  | true =>
    by_cases hn : 0 < n <;> by_cases hcnt : 0 < cnt <;>
      simp [PrettyPrefix, WriteIndent, putChar, putChars, hcfg, hn, hcnt,
        List.append_assoc]
  | false =>
    rcases hmod with hmod | hmod
    · by_cases hn : 0 < n <;> by_cases hcnt : 0 < cnt <;>
        by_cases htype : type = JsonType.kStringType <;>
          simp [PrettyPrefix, WriteIndent, putChar, putChars, hcfg, hn, hcnt, hmod, htype,
            List.append_assoc]
    · have hn : 0 < n := by omega
      by_cases hcnt : 0 < cnt <;>
        simp [PrettyPrefix, WriteIndent, putChar, putChars, hcfg, hn, hcnt, hmod,
          List.append_assoc]

/-- On a compact-mode writer (`indentCharCount_ = 0`), a successful
`PrettyPrefix` appends nothing, a lone comma, or a lone colon. -/
lemma prettyPrefix_compact_out (type : JsonType) (stk : List Level) (o : List Char) (f : Nat)
    (ind : List Char) (p : Int) (s : WriterState)
    (hs : PrettyPrefix type ⟨stk, ⟨o, f⟩, ind, 0, p⟩ = some s) :
    s.os_.out = o ∨ s.os_.out = o ++ [','] ∨ s.os_.out = o ++ [':'] := by
  match stk with
  | [] =>
    simp only [PrettyPrefix] at hs
    cases hs
    exact Or.inl rfl
  | ⟨a, n⟩ :: rest =>
    rw [prettyPrefix_cons type a n rest o f ind 0 p (Nat.zero_le _)] at hs
    rcases Nat.mod_two_eq_zero_or_one n with hmod | hmod <;>
      by_cases htype : type = JsonType.kStringType <;>
        by_cases hn : 0 < n <;>
          cases a <;>
            simp [hmod, htype, hn, indentChars_zero] at hs <;>
              (subst hs; simp)

/-- C1: while the top frame is an array, the separator policy run before every
value emission writes a comma iff the frame's `valueCount` is positive, then in
both the comma and first-element cases a newline iff the indent repeat count is
positive, then indentation, and it increments the top frame's `valueCount` by
exactly one; a container start runs the same policy, so it too counts as one
child of its parent (shown for `StartArray`). -/
theorem c1_array_separator_policy (st : WriterState) (type : JsonType) (level : Level)
    (rest : List Level) (hstk : st.level_stack_ = level :: rest) (hin : level.inArray = true)
    (hcfg : st.indentCharCount_ ≤ st.indentation_.length) :
    PrettyPrefix type st = some
      { st with
        level_stack_ := { level with valueCount := level.valueCount + 1 } :: rest
        os_ := { st.os_ with out := st.os_.out
          ++ (if 0 < level.valueCount then [','] else [])
          ++ (if 0 < st.indentCharCount_ then ['\n'] else [])
          ++ (indentChars st.indentation_ st.indentCharCount_ (rest.length + 1)) } }
    ∧ (StartArray st).map (fun s => s.level_stack_)
        = some (⟨true, 0⟩ :: { level with valueCount := level.valueCount + 1 } :: rest) := by
  obtain ⟨stk, ⟨o, f⟩, ind, cnt, p⟩ := st
  obtain ⟨a, n⟩ := level
  simp only at hstk hcfg
  subst hstk
  simp only [Level.inArray] at hin
  subst hin
  constructor
  · rw [prettyPrefix_cons type true n rest o f ind cnt p hcfg]
    simp
  · simp only [StartArray]
    rw [prettyPrefix_cons JsonType.kArrayType true n rest o f ind cnt p hcfg]
    simp [putChar]

theorem c1_witness :
    (1 : Nat) ≤ ([' '] : List Char).length ∧
    PrettyPrefix JsonType.kNullType ⟨[⟨true, 1⟩], ⟨['['], 0⟩, [' '], 1, 6⟩
      = some ⟨[⟨true, 2⟩], ⟨['[', ',', '\n', ' '], 0⟩, [' '], 1, 6⟩ := by
  refine ⟨by decide, ?_⟩
  rw [(c1_array_separator_policy ⟨[⟨true, 1⟩], ⟨['['], 0⟩, [' '], 1, 6⟩ JsonType.kNullType
    ⟨true, 1⟩ [] rfl rfl (by decide)).1]
  decide

/-- C2 counterexample: in compact mode (default configuration,
`indentCharCount_ = 0`), emitting an object member's value writes the colon
with NO following space — the output of `{"a":1`'s prefix is `{"a":1`, not
`{"a": 1` as the claim predicts. -/
theorem c2_counterexample :
    (run [WriteOp.startObject, WriteOp.str ['a'], WriteOp.int 1] mkPrettyWriter).map
        (fun s => s.os_.out)
      = some ['{', '"', 'a', '"', ':', '1']
    ∧ (run [WriteOp.startObject, WriteOp.str ['a'], WriteOp.int 1] mkPrettyWriter).map
        (fun s => s.os_.out)
      ≠ some ['{', '"', 'a', '"', ':', ' ', '1'] := by
  decide

/-- C2 (amended): with indent repeat count = 0 (compact mode), emitting an
object member's value (top frame an object, `valueCount` odd) writes a colon
with no following space (the single space after the colon is written only when
the indent repeat count is positive); and in compact mode the separator policy
never writes a newline or an indentation character — every successful
`PrettyPrefix` appends nothing, a lone comma, or a lone colon. -/
theorem c2_compact_mode (st : WriterState) (type : JsonType) (level : Level) (rest : List Level)
    (hc : st.indentCharCount_ = 0) :
    (st.level_stack_ = level :: rest → level.inArray = false → level.valueCount % 2 = 1 →
      PrettyPrefix type st = some
        { st with
          level_stack_ := { level with valueCount := level.valueCount + 1 } :: rest
          os_ := { st.os_ with out := st.os_.out ++ [':'] } })
    ∧ (∀ s, PrettyPrefix type st = some s →
        s.os_.out = st.os_.out ∨ s.os_.out = st.os_.out ++ [','] ∨
          s.os_.out = st.os_.out ++ [':']) := by
  obtain ⟨stk, ⟨o, f⟩, ind, cnt, p⟩ := st
  simp only at hc
  subst hc
  constructor
  · rintro hstk hin hodd
    obtain ⟨a, n⟩ := level
    simp only at hstk hin hodd
    subst hstk
    subst hin
    rw [prettyPrefix_cons type false n rest o f ind 0 p (Nat.zero_le _)]
    simp [hodd]
  · intro s hs
    exact prettyPrefix_compact_out type stk o f ind p s hs

theorem c2_witness :
    ((⟨[⟨false, 1⟩], ⟨['{', '"', 'a', '"'], 0⟩, [], 0, 6⟩ : WriterState).indentCharCount_ = 0) ∧
    PrettyPrefix JsonType.kNumberType ⟨[⟨false, 1⟩], ⟨['{', '"', 'a', '"'], 0⟩, [], 0, 6⟩
      = some ⟨[⟨false, 2⟩], ⟨['{', '"', 'a', '"', ':'], 0⟩, [], 0, 6⟩ := by
  refine ⟨rfl, ?_⟩
  rw [(c2_compact_mode ⟨[⟨false, 1⟩], ⟨['{', '"', 'a', '"'], 0⟩, [], 0, 6⟩ JsonType.kNumberType
    ⟨false, 1⟩ [] rfl).1 rfl rfl rfl]
  decide

/-- C3: the claim says a writer on which `SetIndent` was never called behaves
as if configured with 4 spaces.  The constructor in the source initializes
`indentation_("")` and `indentCharCount_(0)`, i.e. compact mode — contradicting
the constructor's own doc comment ("The default indentation is 4 spaces"): a
fresh writer emits `[null]` with no newlines or indentation, while a writer
explicitly configured with 4 spaces emits the indented form. -/
theorem c3_default_is_compact_not_four_spaces :
    mkPrettyWriter.indentation_ = [] ∧ mkPrettyWriter.indentCharCount_ = 0
    ∧ (run [WriteOp.startArray, WriteOp.null, WriteOp.endArray] mkPrettyWriter).map
        (fun s => s.os_.out)
      = some ['[', 'n', 'u', 'l', 'l', ']']
    ∧ (run [WriteOp.startArray, WriteOp.null, WriteOp.endArray]
        (SetIndent [' ', ' ', ' ', ' '] 4 mkPrettyWriter)).map (fun s => s.os_.out)
      = some ['[', '\n', ' ', ' ', ' ', ' ', 'n', 'u', 'l', 'l', '\n', ']'] := by
  decide

/-- C4: emitting NaN / +Infinity / -Infinity through the double path appends
exactly the literal token `NaN` / `Infinity` / `-Infinity` to the sink with no
comma, colon, newline or indentation from the separator policy — even when the
top frame is an array (including its first element) — while a finite double
runs the full separator policy and then the numeric encoder. -/
theorem c4_nonfinite_double_tokens (st : WriterState) (payload : Nat) (level : Level)
    (rest : List Level) (hstk : st.level_stack_ = level :: rest) (hin : level.inArray = true)
    (hcfg : st.indentCharCount_ ≤ st.indentation_.length) :
    (writeDouble DoubleArg.nan st).map (fun s => s.os_.out)
      = some (st.os_.out ++ ['N', 'a', 'N'])
    ∧ (writeDouble DoubleArg.posInf st).map (fun s => s.os_.out)
      = some (st.os_.out ++ ['I', 'n', 'f', 'i', 'n', 'i', 't', 'y'])
    ∧ (writeDouble DoubleArg.negInf st).map (fun s => s.os_.out)
      = some (st.os_.out ++ ['-', 'I', 'n', 'f', 'i', 'n', 'i', 't', 'y'])
    ∧ (writeDouble (DoubleArg.finite payload) st).map (fun s => s.os_.out)
      = some (st.os_.out
          ++ (if 0 < level.valueCount then [','] else [])
          ++ (if 0 < st.indentCharCount_ then ['\n'] else [])
          ++ (indentChars st.indentation_ st.indentCharCount_ (rest.length + 1))
          ++ (toString st.doublePrecision_).toList ++ '~' :: (toString payload).toList) := by
  refine ⟨by simp [writeDouble, putChars], by simp [writeDouble, putChars],
    by simp [writeDouble, putChars], ?_⟩
  obtain ⟨stk, ⟨o, f⟩, ind, cnt, p⟩ := st
  obtain ⟨a, n⟩ := level
  simp only at hstk hcfg
  subst hstk
  simp only [Level.inArray] at hin
  subst hin
  simp only [writeDouble]
  rw [prettyPrefix_cons JsonType.kNumberType true n rest o f ind cnt p hcfg]
  simp [WriteDouble, putChars, List.append_assoc]

theorem c4_witness :
    ((⟨[⟨true, 0⟩], ⟨['['], 0⟩, [' '], 1, 6⟩ : WriterState).indentCharCount_
        ≤ (⟨[⟨true, 0⟩], ⟨['['], 0⟩, [' '], 1, 6⟩ : WriterState).indentation_.length) ∧
    (writeDouble DoubleArg.nan ⟨[⟨true, 0⟩], ⟨['['], 0⟩, [' '], 1, 6⟩).map (fun s => s.os_.out)
      = some ['[', 'N', 'a', 'N'] := by
  refine ⟨by decide, ?_⟩
  rw [(c4_nonfinite_double_tokens ⟨[⟨true, 0⟩], ⟨['['], 0⟩, [' '], 1, 6⟩ 0
    ⟨true, 0⟩ [] rfl rfl (by decide)).1]
  decide

/-- C5: every protocol violation is an immediate assertion failure: `EndObject`
on an empty stack or with an array on top fails; `EndArray` on an empty stack
or with an object on top fails; and emitting a non-`kStringType` kind while the
top frame is an object with even `valueCount` (key position) fails inside
`PrettyPrefix`. -/
theorem c5_protocol_violations (os : OutputStream) (ind : List Char) (cnt : Nat) (p : Int)
    (n : Nat) (rest : List Level) (type : JsonType)
    (htype : type ≠ JsonType.kStringType) :
    EndObject ⟨[], os, ind, cnt, p⟩ = none
    ∧ EndObject ⟨⟨true, n⟩ :: rest, os, ind, cnt, p⟩ = none
    ∧ EndArray ⟨[], os, ind, cnt, p⟩ = none
    ∧ EndArray ⟨⟨false, n⟩ :: rest, os, ind, cnt, p⟩ = none
    ∧ (n % 2 = 0 → PrettyPrefix type ⟨⟨false, n⟩ :: rest, os, ind, cnt, p⟩ = none) := by
  obtain ⟨o, f⟩ := os
  refine ⟨rfl, by simp [EndObject], rfl, by simp [EndArray], ?_⟩
  intro hmod
  by_cases hcfg : cnt ≤ ind.length
  · rw [prettyPrefix_cons type false n rest o f ind cnt p hcfg]
    simp [hmod, htype]
  · by_cases hn : 0 < n <;> by_cases hcnt : 0 < cnt <;>
      simp [PrettyPrefix, WriteIndent, putChar, hmod, hn, hcnt, hcfg]

theorem c5_witness :
    (JsonType.kNumberType ≠ JsonType.kStringType)
    ∧ EndObject ⟨[], ⟨[], 0⟩, [], 0, 6⟩ = none
    ∧ EndObject ⟨[⟨true, 0⟩], ⟨[], 0⟩, [], 0, 6⟩ = none
    ∧ EndArray ⟨[], ⟨[], 0⟩, [], 0, 6⟩ = none
    ∧ EndArray ⟨[⟨false, 0⟩], ⟨[], 0⟩, [], 0, 6⟩ = none
    ∧ PrettyPrefix JsonType.kNumberType ⟨[⟨false, 0⟩], ⟨[], 0⟩, [], 0, 6⟩ = none := by
  have h := c5_protocol_violations ⟨[], 0⟩ [] 0 6 0 [] JsonType.kNumberType (by decide)
  exact ⟨by decide, h.1, h.2.1, h.2.2.1, h.2.2.2.1, h.2.2.2.2 rfl⟩

/-- C6: a container closed while its `valueCount` is 0 emits its closing token
immediately after the opening token, with no interior whitespace, for every
state and every indent configuration: after any successful `StartObject` the
sink ends in `{` and `EndObject` appends exactly `}`; after any successful
`StartArray` the sink ends in `[` and `EndArray` appends exactly `]`. -/
theorem c6_empty_containers (st s t : WriterState)
    (ho : StartObject st = some s) (ha : StartArray st = some t) :
    s.os_.out.getLast? = some '{'
    ∧ (EndObject s).map (fun u => u.os_.out) = some (s.os_.out ++ ['}'])
    ∧ t.os_.out.getLast? = some '['
    ∧ (EndArray t).map (fun u => u.os_.out) = some (t.os_.out ++ [']']) := by
  rw [StartObject, Option.map_eq_some'] at ho
  rw [StartArray, Option.map_eq_some'] at ha
  obtain ⟨a1, ha1, hs⟩ := ho
  obtain ⟨a2, ha2, ht⟩ := ha
  subst hs
  subst ht
  refine ⟨?_, ?_, ?_, ?_⟩
  · simp [putChar]
  · simp only [EndObject, putChar]
    split_ifs <;> simp_all [flushOs] <;> (split <;> rfl)
  · simp [putChar]
  · simp only [EndArray, putChar]
    split_ifs <;> simp_all [flushOs] <;> (split <;> rfl)

theorem c6_witness :
    StartObject mkPrettyWriter = some ⟨[⟨false, 0⟩], ⟨['{'], 0⟩, [], 0, 6⟩
    ∧ StartArray mkPrettyWriter = some ⟨[⟨true, 0⟩], ⟨['['], 0⟩, [], 0, 6⟩
    ∧ (EndObject ⟨[⟨false, 0⟩], ⟨['{'], 0⟩, [], 0, 6⟩).map (fun u => u.os_.out)
        = some ['{', '}']
    ∧ (EndArray ⟨[⟨true, 0⟩], ⟨['['], 0⟩, [], 0, 6⟩).map (fun u => u.os_.out)
        = some ['[', ']'] := by
  have h := c6_empty_containers mkPrettyWriter ⟨[⟨false, 0⟩], ⟨['{'], 0⟩, [], 0, 6⟩
    ⟨[⟨true, 0⟩], ⟨['['], 0⟩, [], 0, 6⟩ (by decide) (by decide)
  exact ⟨by decide, by decide, by rw [h.2.1]; decide, by rw [h.2.2.2]; decide⟩

/-- Full characterization of `EndObject` on an object frame. -/
lemma endObject_cons (n : Nat) (rest : List Level) (o : List Char) (f : Nat)
    (ind : List Char) (cnt : Nat) (p : Int) (hcfg : cnt ≤ ind.length) :
    EndObject ⟨⟨false, n⟩ :: rest, ⟨o, f⟩, ind, cnt, p⟩ = some
      ⟨rest,
       ⟨o ++ (if 0 < n then (if 0 < cnt then ['\n'] else [])
                ++ (indentChars ind cnt rest.length)
              else []) ++ ['}'],
        if rest.isEmpty then f + 1 else f⟩, ind, cnt, p⟩ := by
  by_cases hn : n = 0
  · subst hn
    simp only [EndObject]
    split_ifs <;> simp_all [flushOs, putChar]
  · have hpos : 0 < n := Nat.pos_of_ne_zero hn
    by_cases hcnt : 0 < cnt <;>
      · simp only [EndObject]
        simp [WriteIndent, putChar, hcfg, hn, hpos, hcnt, List.append_assoc]
        split_ifs <;> simp_all [flushOs, putChars, List.append_assoc]

/-- Full characterization of `EndArray` on an array frame. -/
lemma endArray_cons (n : Nat) (rest : List Level) (o : List Char) (f : Nat)
    (ind : List Char) (cnt : Nat) (p : Int) (hcfg : cnt ≤ ind.length) :
    EndArray ⟨⟨true, n⟩ :: rest, ⟨o, f⟩, ind, cnt, p⟩ = some
      ⟨rest,
       ⟨o ++ (if 0 < n then (if 0 < cnt then ['\n'] else [])
                ++ (indentChars ind cnt rest.length)
              else []) ++ [']'],
        if rest.isEmpty then f + 1 else f⟩, ind, cnt, p⟩ := by
  by_cases hn : n = 0
  · subst hn
    simp only [EndArray]
    split_ifs <;> simp_all [flushOs, putChar]
  · have hpos : 0 < n := Nat.pos_of_ne_zero hn
    by_cases hcnt : 0 < cnt <;>
      · simp only [EndArray]
        simp [WriteIndent, putChar, hcfg, hn, hpos, hcnt, List.append_assoc]
        split_ifs <;> simp_all [flushOs, putChars, List.append_assoc]

/-- C7: `EndObject`/`EndArray` pop the frame first; when the popped frame's
`valueCount` is positive they write a newline iff indentation is enabled and
then indentation at the parent's depth (the stack size after the pop) before
the closing token; and the sink is flushed exactly when the stack has become
empty after the pop. -/
theorem c7_end_pops_then_closes (st : WriterState) (level : Level) (rest : List Level)
    (hstk : st.level_stack_ = level :: rest)
    (hcfg : st.indentCharCount_ ≤ st.indentation_.length) :
    (level.inArray = false →
      (EndObject st).map (fun s => s.level_stack_) = some rest
      ∧ (EndObject st).map (fun s => s.os_.out)
        = some (st.os_.out
            ++ (if 0 < level.valueCount then
                  (if 0 < st.indentCharCount_ then ['\n'] else [])
                  ++ (indentChars st.indentation_ st.indentCharCount_ rest.length)
                else [])
            ++ ['}'])
      ∧ (EndObject st).map (fun s => s.os_.flushed)
        = some (if rest.isEmpty then st.os_.flushed + 1 else st.os_.flushed))
    ∧ (level.inArray = true →
      (EndArray st).map (fun s => s.level_stack_) = some rest
      ∧ (EndArray st).map (fun s => s.os_.out)
        = some (st.os_.out
            ++ (if 0 < level.valueCount then
                  (if 0 < st.indentCharCount_ then ['\n'] else [])
                  ++ (indentChars st.indentation_ st.indentCharCount_ rest.length)
                else [])
            ++ [']'])
      ∧ (EndArray st).map (fun s => s.os_.flushed)
        = some (if rest.isEmpty then st.os_.flushed + 1 else st.os_.flushed)) := by
  obtain ⟨stk, ⟨o, f⟩, ind, cnt, p⟩ := st
  obtain ⟨a, n⟩ := level
  simp only at hstk hcfg
  subst hstk
  constructor
  · intro hin
    simp only at hin
    subst hin
    rw [endObject_cons n rest o f ind cnt p hcfg]
    refine ⟨rfl, by simp, by simp⟩
  · intro hin
    simp only at hin
    subst hin
    rw [endArray_cons n rest o f ind cnt p hcfg]
    refine ⟨rfl, by simp, by simp⟩

theorem c7_witness :
    ((⟨[⟨false, 2⟩], ⟨['x'], 0⟩, [' '], 1, 6⟩ : WriterState).level_stack_ = [⟨false, 2⟩])
    ∧ (1 : Nat) ≤ ([' '] : List Char).length
    ∧ (EndObject ⟨[⟨false, 2⟩], ⟨['x'], 0⟩, [' '], 1, 6⟩).map (fun s => s.os_.out)
        = some ['x', '\n', '}']
    ∧ (EndObject ⟨[⟨false, 2⟩], ⟨['x'], 0⟩, [' '], 1, 6⟩).map (fun s => s.os_.flushed)
        = some 1 := by
  have h := (c7_end_pops_then_closes ⟨[⟨false, 2⟩], ⟨['x'], 0⟩, [' '], 1, 6⟩
    ⟨false, 2⟩ [] rfl (by decide)).1 rfl
  exact ⟨rfl, by decide, by rw [h.2.1]; decide, by rw [h.2.2]; decide⟩

/-- C8 counterexample: with the in-bounds configuration unit = "ab", repeat
count = 1, the claim predicts the unit written verbatim once per level ("ab"
at depth 1), but the writer indents the first array element with just "a":
`WriteIndent` writes only the first `indentCharCount_` characters of the unit
per level, not the whole unit repeated. -/
theorem c8_counterexample :
    (run [WriteOp.startArray, WriteOp.null] (SetIndent ['a', 'b'] 1 mkPrettyWriter)).map
        (fun s => s.os_.out)
      = some ['[', '\n', 'a', 'n', 'u', 'l', 'l']
    ∧ (run [WriteOp.startArray, WriteOp.null] (SetIndent ['a', 'b'] 1 mkPrettyWriter)).map
        (fun s => s.os_.out)
      ≠ some ['[', '\n', 'a', 'b', 'n', 'u', 'l', 'l'] := by
  decide

/-- C8 (amended): for every in-bounds configuration (repeat count at most the
unit's length), an indent-write writes per nesting level the FIRST
`indentCharCount_` characters of the configured unit — the unit truncated to
the repeat count, once per level, not the unit repeated that many times — with
the level count recomputed from the current stack size; consequently the
indentation width always equals stack depth × repeat count (e.g. 50 × the
per-level width at 50 levels of nesting). -/
theorem c8_indent_unit_truncated (st : WriterState)
    (hcfg : st.indentCharCount_ ≤ st.indentation_.length) :
    WriteIndent st = some (putChars
      ((List.replicate st.level_stack_.length
        (st.indentation_.take st.indentCharCount_)).flatten) st)
    ∧ (WriteIndent st).map (fun s => s.os_.out.length)
      = some (st.os_.out.length + st.level_stack_.length * st.indentCharCount_) := by
  refine ⟨by simp [WriteIndent, hcfg, indentChars], ?_⟩
  simp [WriteIndent, hcfg, putChars,
    indentChars_length st.indentation_ st.indentCharCount_ st.level_stack_.length hcfg]

theorem c8_witness :
    ((⟨List.replicate 50 ⟨true, 1⟩, ⟨[], 0⟩, [' ', ' '], 2, 6⟩ : WriterState).indentCharCount_
        ≤ (⟨List.replicate 50 ⟨true, 1⟩, ⟨[], 0⟩, [' ', ' '], 2, 6⟩
            : WriterState).indentation_.length)
    ∧ (WriteIndent ⟨List.replicate 50 ⟨true, 1⟩, ⟨[], 0⟩, [' ', ' '], 2, 6⟩).map
        (fun s => s.os_.out.length) = some 100 := by
  refine ⟨by decide, ?_⟩
  rw [(c8_indent_unit_truncated ⟨List.replicate 50 ⟨true, 1⟩, ⟨[], 0⟩, [' ', ' '], 2, 6⟩
    (by decide)).2]
  decide

/-- C9: the precision-taking double overload `Double(d, precision)` restores
the encoder's configured precision: after any successful call it equals its
value before the call. -/
theorem c9_precision_restored (d : DoubleArg) (precision : Int) (st s : WriterState)
    (h : writeDoublePrec d precision st = some s) :
    GetDoublePrecision s = GetDoublePrecision st := by
  simp only [writeDoublePrec, Option.map_eq_some'] at h
  obtain ⟨a, -, ha⟩ := h
  subst ha
  rfl

theorem c9_witness :
    writeDoublePrec (DoubleArg.finite 0) 17 mkPrettyWriter
      = some ⟨[], ⟨['1', '7', '~', '0'], 0⟩, [], 0, 6⟩
    ∧ GetDoublePrecision (⟨[], ⟨['1', '7', '~', '0'], 0⟩, [], 0, 6⟩ : WriterState)
      = GetDoublePrecision mkPrettyWriter := by
  refine ⟨by decide, ?_⟩
  exact c9_precision_restored (DoubleArg.finite 0) 17 mkPrettyWriter
    ⟨[], ⟨['1', '7', '~', '0'], 0⟩, [], 0, 6⟩ (by decide)

/-- C10: emitting a non-finite double leaves the nesting stack — including the
top frame's `valueCount`, hence also the object key/value parity — entirely
unchanged; consequently the next value emitted into the same array is still
treated as the first element: its separator policy writes newline/indentation
but no comma. -/
theorem c10_nonfinite_leaves_stack (st : WriterState) (rest : List Level) (type : JsonType)
    (hcfg : st.indentCharCount_ ≤ st.indentation_.length) :
    ((writeDouble DoubleArg.nan st).map (fun s => s.level_stack_) = some st.level_stack_
    ∧ (writeDouble DoubleArg.posInf st).map (fun s => s.level_stack_) = some st.level_stack_
    ∧ (writeDouble DoubleArg.negInf st).map (fun s => s.level_stack_) = some st.level_stack_)
    ∧ (st.level_stack_ = ⟨true, 0⟩ :: rest →
      ∀ s, writeDouble DoubleArg.nan st = some s →
        PrettyPrefix type s = some
          { s with
            level_stack_ := ⟨true, 1⟩ :: rest
            os_ := { s.os_ with out := s.os_.out
              ++ (if 0 < st.indentCharCount_ then ['\n'] else [])
              ++ (indentChars st.indentation_ st.indentCharCount_ (rest.length + 1)) } }) := by
  refine ⟨⟨by simp [writeDouble, putChars], by simp [writeDouble, putChars],
    by simp [writeDouble, putChars]⟩, ?_⟩
  intro hstk s hs
  simp only [writeDouble, Option.some.injEq] at hs
  subst hs
  obtain ⟨stk, ⟨o, f⟩, ind, cnt, p⟩ := st
  simp only at hstk hcfg
  subst hstk
  have hput : putChars ['N', 'a', 'N'] ⟨⟨true, 0⟩ :: rest, ⟨o, f⟩, ind, cnt, p⟩
      = ⟨⟨true, 0⟩ :: rest, ⟨o ++ ['N', 'a', 'N'], f⟩, ind, cnt, p⟩ := rfl
  rw [hput]
  rw [prettyPrefix_cons type true 0 rest (o ++ ['N', 'a', 'N']) f ind cnt p hcfg]
  simp [hput, List.append_assoc]

theorem c10_witness :
    ((⟨[⟨true, 0⟩], ⟨['['], 0⟩, [' '], 1, 6⟩ : WriterState).indentCharCount_
        ≤ (⟨[⟨true, 0⟩], ⟨['['], 0⟩, [' '], 1, 6⟩ : WriterState).indentation_.length)
    ∧ (writeDouble DoubleArg.nan ⟨[⟨true, 0⟩], ⟨['['], 0⟩, [' '], 1, 6⟩).map
        (fun s => s.level_stack_) = some [⟨true, 0⟩]
    ∧ PrettyPrefix JsonType.kNumberType ⟨[⟨true, 0⟩], ⟨['[', 'N', 'a', 'N'], 0⟩, [' '], 1, 6⟩
      = some ⟨[⟨true, 1⟩], ⟨['[', 'N', 'a', 'N', '\n', ' '], 0⟩, [' '], 1, 6⟩ := by
  have h := c10_nonfinite_leaves_stack ⟨[⟨true, 0⟩], ⟨['['], 0⟩, [' '], 1, 6⟩ []
    JsonType.kNumberType (by decide)
  refine ⟨by decide, h.1.1, ?_⟩
  rw [h.2 rfl ⟨[⟨true, 0⟩], ⟨['[', 'N', 'a', 'N'], 0⟩, [' '], 1, 6⟩ (by decide)]
  decide
